import Mathlib

/-!
Shallow embedding of the rendy command-pool module (src/command/src/pool.rs):
the `CommandPool` and `OwningCommandPool` data types and their operations,
together with a trace model of the opaque backend boundary
(allocate / free / reset / destroy, spec section 6).
-/

set_option autoImplicit false

/-- Modelled from the spec: the command-buffer level marker from the absent
level module (PrimaryLevel / SecondaryLevel); `level()` returns the raw value. -/
inductive Level where
  | primary
  | secondary
  deriving DecidableEq

/-- Modelled from the spec: the general queue-capability value type from the
absent capability module, a closed set {Transfer, Compute, Graphics, General}
(spec sections 2 and 3). -/
inductive QueueType where
  | general
  | graphics
  | compute
  | transfer
  deriving DecidableEq

/-- Modelled from the spec: type-level capability markers of the absent
capability module, one per variant of the capability set (spec section 2). -/
inductive CapMarker where
  | general
  | graphics
  | compute
  | transfer
  deriving DecidableEq

/-- Modelled from the spec: widening a specific capability marker into the
general queue-type representation (`into_queue_type`, spec section 4.1). -/
def CapMarker.into_queue_type : CapMarker → QueueType
  | .general => .general
  | .graphics => .graphics
  | .compute => .compute
  | .transfer => .transfer

/-- Modelled from the spec: widening the already-general representation is the
identity (`into_queue_type` on the value-level capability). -/
def QueueType.into_queue_type : QueueType → QueueType := fun c => c

/-- Modelled from the spec: the supports relation of the capability lattice.
General supports every marker; Graphics and Compute support themselves and
Transfer; Transfer supports only Transfer (spec sections 2, 4.1 and 9). -/
def QueueType.supportsCap : QueueType → CapMarker → Bool
  | .general, _ => true
  | .graphics, .graphics => true
  | .graphics, .transfer => true
  | .compute, .compute => true
  | .compute, .transfer => true
  | .transfer, .transfer => true
  | _, _ => false

/-- Modelled from the spec: `Supports::supports` for the general representation,
returning the target marker when supported and `none` otherwise
(spec section 4.1: narrowing is a partial function). -/
def QueueType.supports (u : CapMarker) (c : QueueType) : Option CapMarker :=
  if c.supportsCap u then some u else none

/-- Modelled from the spec: the reset-policy marker from the absent capability
module (IndividualReset / NoIndividualReset, spec section 2). -/
inductive ResetPolicy where
  | individualReset
  | noIndividualReset
  deriving DecidableEq

/-- Modelled from the spec: command-buffer lifecycle states
(spec sections 3 and 4.3). -/
inductive BufferState where
  | initial
  | recording
  | executable
  | pending
  | invalid
  deriving DecidableEq

/-- Modelled from the spec: a lifecycle state is droppable (the `Resettable`
bound of `free_buffers`) exactly when it is not mid-recording (spec 4.2). -/
def BufferState.droppable : BufferState → Bool
  | .recording => false
  | _ => true

/-- One call across the opaque backend boundary (spec section 6). -/
inductive BackendCall where
  | allocate (count : Nat) (level : Level)
  | free (handles : List Nat)
  | resetPool (pool : Nat)
  | destroyPool (pool : Nat)
  deriving DecidableEq

/-- The backend boundary state: a fresh raw-handle counter and the trace of
calls made so far. Raw buffer handles are modelled as natural numbers. -/
structure Backend where
  fresh : Nat
  calls : List BackendCall
  deriving DecidableEq

/-- Backend `allocate(count, level)`: hands back `count` fresh raw buffer
handles and records the call. -/
def Backend.allocate (st : Backend) (count : Nat) (level : Level) :
    List Nat × Backend :=
  (List.range' st.fresh count,
    { fresh := st.fresh + count, calls := st.calls ++ [.allocate count level] })

/-- Backend `free(handles)`: records one batched free call. -/
def Backend.free (st : Backend) (handles : List Nat) : Backend :=
  { st with calls := st.calls ++ [.free handles] }

/-- Backend `reset(pool)`: records one pool-reset call. -/
def Backend.resetPool (st : Backend) (pool : Nat) : Backend :=
  { st with calls := st.calls ++ [.resetPool pool] }

/-- Backend `destroy_command_pool(pool)`: records one destroy call. -/
def Backend.destroyPool (st : Backend) (pool : Nat) : Backend :=
  { st with calls := st.calls ++ [.destroyPool pool] }

/-- Whether a backend call is an allocate call. -/
def BackendCall.isAlloc : BackendCall → Bool
  | .allocate _ _ => true
  | _ => false

/-- How many raw buffer handles a backend call hands out. -/
def BackendCall.allocCount : BackendCall → Nat
  | .allocate n _ => n
  | _ => 0

/-- Number of allocate calls in a backend trace. -/
def allocCallCount (l : List BackendCall) : Nat :=
  (l.filter BackendCall.isAlloc).length

/-- Total number of raw buffer handles handed out in a backend trace. -/
def allocTotal (l : List BackendCall) : Nat :=
  (l.map BackendCall.allocCount).sum

/-- Number of backend allocate calls made so far. -/
def Backend.allocCalls (st : Backend) : Nat := allocCallCount st.calls

/-- Total number of raw buffer handles the backend has handed out so far. -/
def Backend.allocatedTotal (st : Backend) : Nat := allocTotal st.calls

/-- Modelled from the spec: the state-tagged command buffer of the absent
buffer module; it carries a raw handle plus capability, lifecycle state,
level, reset-policy and family tags (spec section 3). -/
structure CommandBuffer (C : Type) where
  raw : Nat
  capability : C
  state : BufferState
  level : Level
  reset : ResetPolicy
  family : Nat
  deriving DecidableEq

/-- Modelled from the spec: `CommandBuffer::from_raw` wraps a raw handle with
the given tags. -/
def CommandBuffer.from_raw {C : Type} (raw : Nat) (capability : C)
    (state : BufferState) (level : Level) (reset : ResetPolicy)
    (family : Nat) : CommandBuffer C :=
  ⟨raw, capability, state, level, reset, family⟩

/-- Modelled from the spec: `CommandBuffer::into_raw` hands back the raw
handle. -/
def CommandBuffer.into_raw {C : Type} (b : CommandBuffer C) : Nat := b.raw

/-- `CommandPool` (src/command/src/pool.rs, lines 10-16): a raw backend pool
handle plus capability, reset policy and queue family. The `relevant` liveness
marker carries no data and is omitted. -/
structure CommandPool (C : Type) where
  raw : Nat
  capability : C
  reset : ResetPolicy
  family : Nat
  deriving DecidableEq

/-- `CommandPool::from_raw` (pool.rs, lines 31-44). -/
def CommandPool.from_raw {C : Type} (raw : Nat) (capability : C)
    (reset : ResetPolicy) (family : Nat) : CommandPool C :=
  ⟨raw, capability, reset, family⟩

/-- `CommandPool::allocate_buffers` (pool.rs, lines 47-74): ask the backend for
`count` raw handles at `level` and wrap each with the pool's tags in the
initial state. Only the raw handle is touched mutably, so the pool value is
returned unchanged alongside the new backend state. -/
def CommandPool.allocate_buffers {C : Type} (p : CommandPool C) (st : Backend)
    (level : Level) (count : Nat) :
    List (CommandBuffer C) × CommandPool C × Backend :=
  let pair := st.allocate count level
  (pair.1.map fun raw =>
      CommandBuffer.from_raw raw p.capability .initial level p.reset p.family,
    p, pair.2)

/-- `CommandPool::free_buffers` (pool.rs, lines 79-91): collect each buffer's
raw handle and return all of them to the backend in one batched free call. -/
def CommandPool.free_buffers {C : Type} (p : CommandPool C) (st : Backend)
    (buffers : List (CommandBuffer C)) : CommandPool C × Backend :=
  (p, st.free (buffers.map CommandBuffer.into_raw))

/-- `CommandPool::reset` (pool.rs, lines 99-101): one backend pool-reset on the
raw handle. Named `reset_raw` because `reset` is already the policy field. -/
def CommandPool.reset_raw {C : Type} (p : CommandPool C) (st : Backend) :
    CommandPool C × Backend :=
  (p, st.resetPool p.raw)

/-- `CommandPool::dispose` (pool.rs, lines 108-111): destroy the raw pool via
the backend device. -/
def CommandPool.dispose {C : Type} (p : CommandPool C) (st : Backend) :
    Backend :=
  st.destroyPool p.raw

/-- `CommandPool::with_value_capability` (pool.rs, lines 114-125): widen the
capability tag via `into_queue_type`, keeping raw handle, reset policy and
family. The `Capability` trait method is passed as the dictionary `intoQ`. -/
def CommandPool.with_value_capability {C : Type} (intoQ : C → QueueType)
    (p : CommandPool C) : CommandPool QueueType :=
  { raw := p.raw, capability := intoQ p.capability, reset := p.reset,
    family := p.family }

/-- `CommandPool::with_capability` (pool.rs, lines 128-143): attempt to narrow
the capability via `Supports::supports` (the dictionary `sup`); on failure the
original pool is returned unchanged. -/
def CommandPool.with_capability {C U : Type} (sup : C → Option U)
    (p : CommandPool C) : Except (CommandPool C) (CommandPool U) :=
  match sup p.capability with
  | some capability =>
      .ok { raw := p.raw, capability := capability, reset := p.reset,
            family := p.family }
  | none => .error p

/-- `OwningCommandPool` (pool.rs, lines 152-158): an inner `CommandPool`, the
fixed buffer level, the owned store of raw buffer handles, and the cursor
`next` counting how many are currently lent out. -/
structure OwningCommandPool (C : Type) where
  inner : CommandPool C
  level : Level
  buffers : List Nat
  next : Nat
  deriving DecidableEq

/-- `OwningCommandPool::from_inner` (pool.rs, lines 169-176): wrap a simple
pool; empty store, cursor 0. -/
def OwningCommandPool.from_inner {C : Type} (inner : CommandPool C)
    (level : Level) : OwningCommandPool C :=
  ⟨inner, level, [], 0⟩

/-- `OwningCommandPool::reserve` (pool.rs, lines 180-199): with
`total = next + count`, when `total >= buffers.len()` extend the store with
`total - buffers.len()` handles allocated from the backend in one batch. -/
def OwningCommandPool.reserve {C : Type} (p : OwningCommandPool C)
    (st : Backend) (count : Nat) : OwningCommandPool C × Backend :=
  let total := p.next + count
  if p.buffers.length ≤ total then
    let pair := st.allocate (total - p.buffers.length) p.level
    ({ p with buffers := p.buffers ++ pair.1 }, pair.2)
  else
    (p, st)

/-- `OwningCommandPool::acquire_buffer` (pool.rs, lines 206-225): reserve one
slot, advance `next`, and return a buffer over store slot `next - 1` wrapped
with the inner pool's tags; `none` models the panic of an out-of-bounds
index. -/
def OwningCommandPool.acquire_buffer {C : Type} (p : OwningCommandPool C)
    (st : Backend) : Option (CommandBuffer C × OwningCommandPool C × Backend) :=
  let pair := p.reserve st 1
  let p2 : OwningCommandPool C := { pair.1 with next := pair.1.next + 1 }
  (p2.buffers[p2.next - 1]?).map fun raw =>
    (CommandBuffer.from_raw raw p2.inner.capability .initial p2.level
      p2.inner.reset p2.inner.family, p2, pair.2)

/-- `OwningCommandPool::reset` (pool.rs, lines 237-240): reset the inner pool,
then rewind `next` to 0. -/
def OwningCommandPool.reset {C : Type} (p : OwningCommandPool C)
    (st : Backend) : OwningCommandPool C × Backend :=
  let pair := p.inner.reset_raw st
  ({ p with inner := pair.1, next := 0 }, pair.2)

/-- `OwningCommandPool::dispose` (pool.rs, lines 247-254): reset, free every
stored raw handle in one batch when any remain, then dispose the inner pool. -/
def OwningCommandPool.dispose {C : Type} (p : OwningCommandPool C)
    (st : Backend) : Backend :=
  let pair := p.reset st
  let st2 := if pair.1.buffers.isEmpty then pair.2 else pair.2.free pair.1.buffers
  pair.1.inner.dispose st2

/-- `OwningCommandPool::with_value_capability` (pool.rs, lines 257-267). -/
def OwningCommandPool.with_value_capability {C : Type} (intoQ : C → QueueType)
    (p : OwningCommandPool C) : OwningCommandPool QueueType :=
  { inner := p.inner.with_value_capability intoQ, level := p.level,
    buffers := p.buffers, next := p.next }

/-- `OwningCommandPool::with_capability` (pool.rs, lines 270-288). -/
def OwningCommandPool.with_capability {C U : Type} (sup : C → Option U)
    (p : OwningCommandPool C) :
    Except (OwningCommandPool C) (OwningCommandPool U) :=
  match p.inner.with_capability sup with
  | .ok inner =>
      .ok { inner := inner, level := p.level, buffers := p.buffers,
            next := p.next }
  | .error inner =>
      .error { inner := inner, level := p.level, buffers := p.buffers,
               next := p.next }

/-- Acquire `n` buffers in sequence, threading the pool and backend states;
`none` when some acquisition fails. -/
def acquireN {C : Type} : Nat → OwningCommandPool C → Backend →
    Option (OwningCommandPool C × Backend)
  | 0, p, st => some (p, st)
  | n + 1, p, st =>
    match p.acquire_buffer st with
    | some (_, p1, st1) => acquireN n p1 st1
    | none => none

/-- The owning pool's cursor never exceeds its store length. -/
def OwningCommandPool.Inv {C : Type} (p : OwningCommandPool C) : Prop :=
  p.next ≤ p.buffers.length

/-! Helper lemmas about backend traces. -/

theorem allocCallCount_append (l1 l2 : List BackendCall) :
    allocCallCount (l1 ++ l2) = allocCallCount l1 + allocCallCount l2 := by
  simp [allocCallCount, List.filter_append]

theorem allocTotal_append (l1 l2 : List BackendCall) :
    allocTotal (l1 ++ l2) = allocTotal l1 + allocTotal l2 := by
  simp [allocTotal]

theorem allocCallCount_cons (c : BackendCall) (l : List BackendCall) :
    allocCallCount (c :: l) =
      (if c.isAlloc then 1 else 0) + allocCallCount l := by
  cases h : c.isAlloc
  · simp [allocCallCount, List.filter_cons, h]
  · simp [allocCallCount, List.filter_cons, h]
    omega

theorem allocTotal_cons (c : BackendCall) (l : List BackendCall) :
    allocTotal (c :: l) = c.allocCount + allocTotal l := by
  simp [allocTotal]

theorem allocCallCount_replicate_one (n : Nat) (lv : Level) :
    allocCallCount (List.replicate n (.allocate 1 lv)) = n := by
  induction n with
  | zero => rfl
  | succ n ih =>
      rw [List.replicate_succ, allocCallCount_cons, ih]
      simp [BackendCall.isAlloc]
      omega

theorem allocTotal_replicate_one (n : Nat) (lv : Level) :
    allocTotal (List.replicate n (.allocate 1 lv)) = n := by
  induction n with
  | zero => rfl
  | succ n ih =>
      rw [List.replicate_succ, allocTotal_cons, ih]
      simp [BackendCall.allocCount]
      omega

/-! Helper lemmas about `reserve`. -/

theorem reserve_grow {C : Type} (p : OwningCommandPool C) (st : Backend)
    (count : Nat) (h : p.buffers.length ≤ p.next + count) :
    p.reserve st count =
      ({ p with buffers :=
            p.buffers ++ List.range' st.fresh (p.next + count - p.buffers.length) },
        { fresh := st.fresh + (p.next + count - p.buffers.length),
          calls := st.calls ++
            [.allocate (p.next + count - p.buffers.length) p.level] }) := by
  simp only [OwningCommandPool.reserve, Backend.allocate]
  rw [if_pos h]

theorem reserve_noop {C : Type} (p : OwningCommandPool C) (st : Backend)
    (count : Nat) (h : p.next + count < p.buffers.length) :
    p.reserve st count = (p, st) := by
  simp only [OwningCommandPool.reserve, Backend.allocate]
  rw [if_neg (by omega)]

theorem reserve_len {C : Type} (p : OwningCommandPool C) (st : Backend)
    (count : Nat) :
    ((p.reserve st count).1).buffers.length =
      max (p.next + count) p.buffers.length := by
  by_cases h : p.buffers.length ≤ p.next + count
  · rw [reserve_grow p st count h]
    simp [List.length_range']
    omega
  · rw [reserve_noop p st count (by omega)]
    show p.buffers.length = max (p.next + count) p.buffers.length
    omega

theorem reserve_next {C : Type} (p : OwningCommandPool C) (st : Backend)
    (count : Nat) : ((p.reserve st count).1).next = p.next := by
  by_cases h : p.buffers.length ≤ p.next + count
  · rw [reserve_grow p st count h]
  · rw [reserve_noop p st count (by omega)]

theorem reserve_inner {C : Type} (p : OwningCommandPool C) (st : Backend)
    (count : Nat) : ((p.reserve st count).1).inner = p.inner := by
  by_cases h : p.buffers.length ≤ p.next + count
  · rw [reserve_grow p st count h]
  · rw [reserve_noop p st count (by omega)]

theorem reserve_level {C : Type} (p : OwningCommandPool C) (st : Backend)
    (count : Nat) : ((p.reserve st count).1).level = p.level := by
  by_cases h : p.buffers.length ≤ p.next + count
  · rw [reserve_grow p st count h]
  · rw [reserve_noop p st count (by omega)]

theorem reserve_buffers_grow {C : Type} (p : OwningCommandPool C)
    (st : Backend) (count : Nat) :
    ((p.reserve st count).1).buffers =
      p.buffers ++ List.range' st.fresh (p.next + count - p.buffers.length) := by
  by_cases h : p.buffers.length ≤ p.next + count
  · rw [reserve_grow p st count h]
  · rw [reserve_noop p st count (by omega)]
    have : p.next + count - p.buffers.length = 0 := by omega
    simp [this]

theorem reserve_allocatedTotal {C : Type} (p : OwningCommandPool C)
    (st : Backend) (count : Nat) :
    ((p.reserve st count).2).allocatedTotal =
      st.allocatedTotal + (p.next + count - p.buffers.length) := by
  by_cases h : p.buffers.length ≤ p.next + count
  · rw [reserve_grow p st count h]
    simp [Backend.allocatedTotal, allocTotal_append, allocTotal,
      BackendCall.allocCount]
  · rw [reserve_noop p st count (by omega)]
    show st.allocatedTotal = st.allocatedTotal + (p.next + count - p.buffers.length)
    omega

theorem reserve_allocCalls_le {C : Type} (p : OwningCommandPool C)
    (st : Backend) (count : Nat) :
    ((p.reserve st count).2).allocCalls ≤ st.allocCalls + 1 := by
  by_cases h : p.buffers.length ≤ p.next + count
  · rw [reserve_grow p st count h]
    simp [Backend.allocCalls, allocCallCount_append, allocCallCount,
      BackendCall.isAlloc]
  · rw [reserve_noop p st count (by omega)]
    show st.allocCalls ≤ st.allocCalls + 1
    omega

/-! Claim theorems. -/

/-- C2: `reserve(count)` ensures at least `count` unused slots exist beyond
`next` (`buffers.len() >= next + count`), never shrinks the store (it only
appends), allocates exactly `max(0, next + count - buffers.len())` new buffers
from the backend in at most one batched call, and leaves `next`, the inner
pool and the level unchanged; applied twice (for instance `reserve 5` then
`reserve 3`) it again never shrinks the store and allocates exactly the
shortfall of the second call. -/
theorem C2_reserve_shortfall {C : Type} (p : OwningCommandPool C) (st : Backend)
    (count : Nat) :
    p.next + count ≤ ((p.reserve st count).1).buffers.length ∧
    p.buffers.length ≤ ((p.reserve st count).1).buffers.length ∧
    ((p.reserve st count).1).buffers.length =
      max (p.next + count) p.buffers.length ∧
    ((p.reserve st count).1).buffers =
      p.buffers ++ List.range' st.fresh (p.next + count - p.buffers.length) ∧
    ((p.reserve st count).2).allocatedTotal =
      st.allocatedTotal + (p.next + count - p.buffers.length) ∧
    ((p.reserve st count).2).allocCalls ≤ st.allocCalls + 1 ∧
    ((p.reserve st count).1).next = p.next ∧
    ((p.reserve st count).1).inner = p.inner ∧
    ((p.reserve st count).1).level = p.level ∧
    (∀ c2 : Nat,
      ((p.reserve st count).1).buffers.length ≤
        ((((p.reserve st count).1).reserve ((p.reserve st count).2) c2).1).buffers.length ∧
      ((((p.reserve st count).1).reserve ((p.reserve st count).2) c2).2).allocatedTotal =
        ((p.reserve st count).2).allocatedTotal +
          (((p.reserve st count).1).next + c2 -
            ((p.reserve st count).1).buffers.length)) := by
  refine ⟨?_, ?_, reserve_len p st count, reserve_buffers_grow p st count,
    reserve_allocatedTotal p st count, reserve_allocCalls_le p st count,
    reserve_next p st count, reserve_inner p st count, reserve_level p st count,
    fun c2 => ⟨?_, reserve_allocatedTotal _ _ c2⟩⟩
  · rw [reserve_len]
    omega
  · rw [reserve_len]
    omega
  · have h2 := reserve_len ((p.reserve st count).1) ((p.reserve st count).2) c2
    omega

/-- C3: `allocate_buffers(level, count)` returns exactly the buffers the
backend hands back (their raw handles are precisely the backend's handles),
each wrapped in the initial state at the given level and tagged with the
pool's capability, reset policy and family; the pool's fields are unchanged
by the call. -/
theorem C3_allocate_buffers_wrap {C : Type} (p : CommandPool C) (st : Backend)
    (level : Level) (count : Nat) :
    (p.allocate_buffers st level count).1.map CommandBuffer.into_raw =
      (st.allocate count level).1 ∧
    (p.allocate_buffers st level count).1.length = count ∧
    (∀ b, b ∈ (p.allocate_buffers st level count).1 →
      b.state = .initial ∧ b.level = level ∧ b.capability = p.capability ∧
      b.reset = p.reset ∧ b.family = p.family) ∧
    (p.allocate_buffers st level count).2.1 = p ∧
    (p.allocate_buffers st level count).2.2 = (st.allocate count level).2 := by
  refine ⟨?_, ?_, ?_, rfl, rfl⟩
  · simp only [CommandPool.allocate_buffers, List.map_map]
    have hcomp : (CommandBuffer.into_raw (C := C)) ∘
        (fun raw => CommandBuffer.from_raw raw p.capability .initial level
          p.reset p.family) = id := rfl
    rw [hcomp, List.map_id]
  · simp [CommandPool.allocate_buffers, Backend.allocate, List.length_range']
  · intro b hb
    simp only [CommandPool.allocate_buffers, List.mem_map] at hb
    obtain ⟨raw, -, rfl⟩ := hb
    exact ⟨rfl, rfl, rfl, rfl, rfl⟩

/-- Witness for C3 on a concrete pool, backend state and count. -/
theorem C3_allocate_buffers_witness :
    (CommandPool.allocate_buffers (C := QueueType)
        (CommandPool.from_raw 7 .graphics .individualReset 2) ⟨10, []⟩
        .secondary 2).1.map CommandBuffer.into_raw = [10, 11] ∧
    (CommandBuffer.from_raw 10 QueueType.graphics .initial .secondary
        .individualReset 2).state = BufferState.initial := by
  have h := C3_allocate_buffers_wrap (C := QueueType)
    (CommandPool.from_raw 7 .graphics .individualReset 2) ⟨10, []⟩ .secondary 2
  exact ⟨h.1.trans (by decide), (h.2.2.1 _ (by decide)).1⟩

/-- C4: when the pool's capability does not support the requested target (the
`supports` dictionary yields `none` on it), `with_capability` fails by
returning the original pool unchanged — the identical simple pool, and for
the owning pool the identical raw handle, capability, reset policy, family,
level, buffer store and cursor; no backend interaction occurs (the operation
does not touch the backend state at all). -/
theorem C4_failed_narrow_unchanged {C U : Type} (sup : C → Option U)
    (p : OwningCommandPool C) (h : sup p.inner.capability = none) :
    p.with_capability sup = .error p ∧
    p.inner.with_capability sup = .error p.inner := by
  have hinner : p.inner.with_capability sup = .error p.inner := by
    unfold CommandPool.with_capability
    rw [h]
  refine ⟨?_, hinner⟩
  unfold OwningCommandPool.with_capability
  rw [hinner]

/-- Witness for C4: a Transfer pool cannot be narrowed to Graphics and is
returned unchanged. -/
theorem C4_failed_narrow_witness :
    OwningCommandPool.with_capability (QueueType.supports .graphics)
        (OwningCommandPool.from_inner
          (CommandPool.from_raw 3 QueueType.transfer .noIndividualReset 1)
          .primary) =
      .error (OwningCommandPool.from_inner
          (CommandPool.from_raw 3 QueueType.transfer .noIndividualReset 1)
          .primary) :=
  (C4_failed_narrow_unchanged _ _ (by decide)).1

/-- C6: `reset()` on an owning pool performs exactly one backend pool-reset on
the inner raw pool and rewinds `next` to 0, leaving the buffer store and the
inner pool value unchanged; the only backend call recorded is the pool-reset
(no allocation, free or destroy). -/
theorem C6_reset_rewinds {C : Type} (p : OwningCommandPool C) (st : Backend) :
    (p.reset st).1 = { p with next := 0 } ∧
    (p.reset st).1.buffers = p.buffers ∧
    (p.reset st).1.inner = p.inner ∧
    (p.reset st).2 = { st with calls := st.calls ++ [.resetPool p.inner.raw] } :=
  ⟨rfl, rfl, rfl, rfl⟩

/-- C7: `dispose(device)` on an owning pool performs, in order: one backend
pool-reset (with `next` rewound to 0), then — only when the store is
non-empty — one batched free call handing over every stored raw handle, and
finally the destruction of the inner raw pool via the device. -/
theorem C7_dispose_order {C : Type} (p : OwningCommandPool C) (st : Backend) :
    p.dispose st =
      { st with calls := st.calls ++ [.resetPool p.inner.raw] ++
          (if p.buffers.isEmpty then [] else [.free p.buffers]) ++
          [.destroyPool p.inner.raw] } := by
  by_cases h : p.buffers.isEmpty
  · simp [OwningCommandPool.dispose, OwningCommandPool.reset,
      CommandPool.reset_raw, CommandPool.dispose, Backend.resetPool,
      Backend.destroyPool, Backend.free, h]
  · simp [OwningCommandPool.dispose, OwningCommandPool.reset,
      CommandPool.reset_raw, CommandPool.dispose, Backend.resetPool,
      Backend.destroyPool, Backend.free, h]

/-- C8: `free_buffers` on a collection of droppable-state buffers extracts
each buffer's raw handle and returns all of them to the backend in exactly
one batched free call (also when the collection is empty), leaving the pool's
fields unchanged. -/
theorem C8_free_buffers_batch {C : Type} (p : CommandPool C) (st : Backend)
    (buffers : List (CommandBuffer C))
    (_h : ∀ b ∈ buffers, b.state.droppable = true) :
    p.free_buffers st buffers =
      (p, { st with calls :=
        st.calls ++ [.free (buffers.map CommandBuffer.into_raw)] }) :=
  rfl

/-- Witness for C8 on a concrete two-buffer collection in droppable states. -/
theorem C8_free_buffers_witness :
    CommandPool.free_buffers (C := QueueType)
        (CommandPool.from_raw 4 .compute .individualReset 0) ⟨9, []⟩
        [CommandBuffer.from_raw 5 .compute .executable .primary
            .individualReset 0,
          CommandBuffer.from_raw 6 .compute .initial .primary
            .individualReset 0] =
      (CommandPool.from_raw 4 .compute .individualReset 0,
        ⟨9, [.free [5, 6]]⟩) :=
  C8_free_buffers_batch _ _ _ (by decide)

/-- Unfolding of `acquire_buffer` in terms of `reserve`: the returned buffer
sits at store index `next` (the old cursor) of the reserved store. -/
theorem acquire_buffer_eq {C : Type} (p : OwningCommandPool C) (st : Backend) :
    p.acquire_buffer st =
      (((p.reserve st 1).1).buffers[p.next]?).map fun raw =>
        (CommandBuffer.from_raw raw p.inner.capability .initial p.level
            p.inner.reset p.inner.family,
          { (p.reserve st 1).1 with next := p.next + 1 },
          (p.reserve st 1).2) := by
  simp only [OwningCommandPool.acquire_buffer, Nat.add_sub_cancel]
  rw [reserve_next p st 1, reserve_inner p st 1, reserve_level p st 1]

/-- C5 (amended): when `with_capability` succeeds, re-widening the narrowed
pool with `with_value_capability` yields the target marker's queue type; this
equals the direct widening of the original pool exactly when the original
capability already was that queue type, so a strict narrow changes the
widened tag. Widening an already-general pool is the identity on the whole
pool (hence re-widening twice is idempotent), and both conversions preserve
the raw handle, reset policy and family. -/
theorem C5_widen_after_narrow (p : CommandPool QueueType) (u : CapMarker)
    (p1 : CommandPool CapMarker)
    (h : p.with_capability (QueueType.supports u) = .ok p1) :
    (p1.with_value_capability CapMarker.into_queue_type).capability =
      u.into_queue_type ∧
    ((p1.with_value_capability CapMarker.into_queue_type).capability =
        (p.with_value_capability QueueType.into_queue_type).capability ↔
      u.into_queue_type = p.capability) ∧
    (p1.with_value_capability CapMarker.into_queue_type).raw = p.raw ∧
    (p1.with_value_capability CapMarker.into_queue_type).reset = p.reset ∧
    (p1.with_value_capability CapMarker.into_queue_type).family = p.family ∧
    (∀ q : CommandPool QueueType,
      q.with_value_capability QueueType.into_queue_type = q) := by
  have hp1 : p1 = ⟨p.raw, u, p.reset, p.family⟩ := by
    by_cases hs : p.capability.supportsCap u
    · simp [CommandPool.with_capability, QueueType.supports, hs] at h
      exact h.symm
    · simp [CommandPool.with_capability, QueueType.supports, hs] at h
  subst hp1
  exact ⟨rfl, Iff.rfl, rfl, rfl, rfl, fun q => rfl⟩

/-- C5 is false as stated: narrowing a General pool to Compute succeeds, but
re-widening the narrowed pool yields Compute, not the General capability that
widening the original pool directly yields. -/
theorem C5_counterexample :
    CommandPool.with_capability (QueueType.supports .compute)
        (CommandPool.from_raw 0 QueueType.general .noIndividualReset 0) =
      .ok (CommandPool.from_raw 0 CapMarker.compute .noIndividualReset 0) ∧
    (CommandPool.with_value_capability CapMarker.into_queue_type
        (CommandPool.from_raw 0 CapMarker.compute .noIndividualReset 0)).capability ≠
      (CommandPool.with_value_capability QueueType.into_queue_type
        (CommandPool.from_raw 0 QueueType.general .noIndividualReset 0)).capability :=
  ⟨rfl, by decide⟩

/-- Witness for C5 on a Compute pool narrowed to Compute, where the narrow
succeeds and the round-trip does hold. -/
theorem C5_widen_after_narrow_witness :
    (CommandPool.with_value_capability CapMarker.into_queue_type
        (CommandPool.from_raw 2 CapMarker.compute .individualReset 1)).capability =
      CapMarker.compute.into_queue_type :=
  (C5_widen_after_narrow
    (CommandPool.from_raw 2 QueueType.compute .individualReset 1) .compute
    (CommandPool.from_raw 2 CapMarker.compute .individualReset 1) (by rfl)).1

/-- C9: with `next <= buffers.len()`, `acquire_buffer()` first reserves one
slot, then advances `next` by exactly 1, and succeeds, returning an
initial-state buffer over the store slot at the old value of `next`, tagged
with the inner pool's capability, reset policy and family; the index is in
bounds after the reserve, so the access cannot fail. -/
theorem C9_acquire_buffer_ok {C : Type} (p : OwningCommandPool C)
    (st : Backend) (_h : p.next ≤ p.buffers.length) :
    ∃ b, p.acquire_buffer st =
        some (b, { (p.reserve st 1).1 with next := p.next + 1 },
          (p.reserve st 1).2) ∧
      p.next < ((p.reserve st 1).1).buffers.length ∧
      ((p.reserve st 1).1).buffers[p.next]? = some b.raw ∧
      b.state = .initial ∧ b.capability = p.inner.capability ∧
      b.level = p.level ∧ b.reset = p.inner.reset ∧
      b.family = p.inner.family := by
  have hlt : p.next < ((p.reserve st 1).1).buffers.length := by
    rw [reserve_len]
    omega
  have hraw : ((p.reserve st 1).1).buffers[p.next]? =
      some (((p.reserve st 1).1).buffers[p.next]) :=
    List.getElem?_eq_getElem hlt
  refine ⟨CommandBuffer.from_raw (((p.reserve st 1).1).buffers[p.next])
      p.inner.capability .initial p.level p.inner.reset p.inner.family,
    ?_, hlt, ?_, rfl, rfl, rfl, rfl, rfl⟩
  · rw [acquire_buffer_eq, hraw]
    rfl
  · rw [hraw]
    rfl

/-- Witness for C9: acquiring from a fresh owning pool succeeds. -/
theorem C9_acquire_buffer_witness :
    (OwningCommandPool.acquire_buffer (C := QueueType)
        (OwningCommandPool.from_inner
          (CommandPool.from_raw 0 QueueType.general .noIndividualReset 0)
          .primary) ⟨0, []⟩).isSome = true := by
  obtain ⟨b, heq, -⟩ := C9_acquire_buffer_ok (C := QueueType)
    (OwningCommandPool.from_inner
      (CommandPool.from_raw 0 QueueType.general .noIndividualReset 0)
      .primary) ⟨0, []⟩ (by decide)
  rw [heq]
  rfl

/-- C10: the invariant `next <= buffers.len()` holds for every owning pool
produced by `from_inner` and is preserved by `reserve`, `acquire_buffer`,
`reset`, `with_value_capability` and `with_capability` (on both the success
and the failure branch). -/
theorem C10_invariant_preserved {C U : Type} :
    (∀ (inner : CommandPool C) (level : Level),
      (OwningCommandPool.from_inner inner level).Inv) ∧
    (∀ (p : OwningCommandPool C) (st : Backend) (count : Nat),
      p.Inv → ((p.reserve st count).1).Inv) ∧
    (∀ (p : OwningCommandPool C) (st : Backend) b p2 st2,
      p.Inv → p.acquire_buffer st = some (b, p2, st2) → p2.Inv) ∧
    (∀ (p : OwningCommandPool C) (st : Backend), p.Inv → ((p.reset st).1).Inv) ∧
    (∀ (p : OwningCommandPool C) (intoQ : C → QueueType),
      p.Inv → (p.with_value_capability intoQ).Inv) ∧
    (∀ (p : OwningCommandPool C) (sup : C → Option U) p2,
      p.Inv → p.with_capability sup = .ok p2 → p2.Inv) ∧
    (∀ (p : OwningCommandPool C) (sup : C → Option U) p2,
      p.Inv → p.with_capability sup = .error p2 → p2.Inv) := by
  refine ⟨fun inner level => Nat.le_refl 0, ?_, ?_, ?_, ?_, ?_, ?_⟩
  · intro p st count _
    show ((p.reserve st count).1).next ≤ ((p.reserve st count).1).buffers.length
    rw [reserve_next, reserve_len]
    omega
  · intro p st b p2 st2 _ heq
    rw [acquire_buffer_eq] at heq
    rcases Option.map_eq_some'.mp heq with ⟨raw, -, hmk⟩
    simp only [Prod.mk.injEq] at hmk
    obtain ⟨-, hp2, -⟩ := hmk
    rw [← hp2]
    show p.next + 1 ≤ ((p.reserve st 1).1).buffers.length
    rw [reserve_len]
    omega
  · intro p st _
    exact Nat.zero_le _
  · intro p intoQ h
    exact h
  · intro p sup p2 h heq
    unfold OwningCommandPool.with_capability at heq
    rcases hm : p.inner.with_capability sup with inner2 | inner2 <;>
      rw [hm] at heq
    · exact Except.noConfusion heq
    · injection heq with h2
      rw [← h2]
      exact h
  · intro p sup p2 h heq
    unfold OwningCommandPool.with_capability at heq
    rcases hm : p.inner.with_capability sup with inner2 | inner2 <;>
      rw [hm] at heq
    · injection heq with h2
      rw [← h2]
      exact h
    · exact Except.noConfusion heq

/-- Witness for C10: the invariant holds for a concrete fresh pool and is
kept by a concrete `reserve`. -/
theorem C10_invariant_witness :
    (OwningCommandPool.reserve (C := QueueType)
      (OwningCommandPool.from_inner
        (CommandPool.from_raw 0 QueueType.general .noIndividualReset 0)
        .primary) ⟨0, []⟩ 2).1.Inv :=
  (C10_invariant_preserved (C := QueueType) (U := CapMarker)).2.1 _ _ _
    ((C10_invariant_preserved (C := QueueType) (U := CapMarker)).1 _ _)

/-- Acquiring when the cursor sits at the end of the store: the backend
allocates one fresh handle and the store grows by one slot. -/
theorem acquire_step_grow {C : Type} (p : OwningCommandPool C) (st : Backend)
    (h : p.next = p.buffers.length) :
    p.acquire_buffer st =
      some (CommandBuffer.from_raw st.fresh p.inner.capability .initial
          p.level p.inner.reset p.inner.family,
        ⟨p.inner, p.level, p.buffers ++ [st.fresh], p.next + 1⟩,
        ⟨st.fresh + 1, st.calls ++ [.allocate 1 p.level]⟩) := by
  have h1 : p.buffers.length ≤ p.next + 1 := by omega
  rw [acquire_buffer_eq, reserve_grow p st 1 h1]
  have hsub : p.next + 1 - p.buffers.length = 1 := by omega
  rw [hsub, show List.range' st.fresh 1 = [st.fresh] from rfl, h,
    List.getElem?_concat_length]
  rfl

/-- Acquiring strictly below the last slot of the store: no backend call. -/
theorem acquire_step_mid {C : Type} (p : OwningCommandPool C) (st : Backend)
    (h : p.next + 1 < p.buffers.length) :
    ∃ b, p.acquire_buffer st =
      some (b, ⟨p.inner, p.level, p.buffers, p.next + 1⟩, st) := by
  simp only [acquire_buffer_eq, reserve_noop p st 1 h]
  have hlt : p.next < p.buffers.length := by omega
  rw [List.getElem?_eq_getElem hlt]
  exact ⟨_, rfl⟩

/-- Acquiring the last unused slot of the store: the slot is reused, but
`reserve` still re-enters the backend with a zero-count allocate call because
its condition is `total >= buffers.len()`. -/
theorem acquire_step_boundary {C : Type} (p : OwningCommandPool C)
    (st : Backend) (h : p.next + 1 = p.buffers.length) :
    ∃ b, p.acquire_buffer st =
      some (b, ⟨p.inner, p.level, p.buffers, p.next + 1⟩,
        ⟨st.fresh, st.calls ++ [.allocate 0 p.level]⟩) := by
  have h1 : p.buffers.length ≤ p.next + 1 := by omega
  rw [acquire_buffer_eq, reserve_grow p st 1 h1]
  have hsub : p.next + 1 - p.buffers.length = 0 := by omega
  rw [hsub, show List.range' st.fresh 0 = [] from rfl, List.append_nil]
  have hlt : p.next < p.buffers.length := by omega
  rw [List.getElem?_eq_getElem hlt]
  exact ⟨_, rfl⟩

/-- A batch of `n` acquisitions starting with the cursor at the end of the
store: every step allocates exactly one handle from the backend. -/
theorem acquireN_grow {C : Type} (n : Nat) :
    ∀ (p : OwningCommandPool C) (st : Backend), p.next = p.buffers.length →
    ∃ p1 st1, acquireN n p st = some (p1, st1) ∧
      p1.inner = p.inner ∧ p1.level = p.level ∧
      p1.next = p.next + n ∧ p1.next = p1.buffers.length ∧
      st1.fresh = st.fresh + n ∧
      st1.calls = st.calls ++ List.replicate n (.allocate 1 p.level) := by
  induction n with
  | zero =>
      intro p st h
      exact ⟨p, st, rfl, rfl, rfl, rfl, h, rfl, by simp⟩
  | succ n ih =>
      intro p st h
      obtain ⟨p1, st1, heq, hinner, hlevel, hnext, hlen, hfresh, hcalls⟩ :=
        ih ⟨p.inner, p.level, p.buffers ++ [st.fresh], p.next + 1⟩
          ⟨st.fresh + 1, st.calls ++ [.allocate 1 p.level]⟩
          (by simp [h])
      have hinner2 : p1.inner = p.inner := hinner
      have hlevel2 : p1.level = p.level := hlevel
      have hnext2 : p1.next = p.next + 1 + n := hnext
      have hfresh2 : st1.fresh = st.fresh + 1 + n := hfresh
      have hcalls2 : st1.calls = (st.calls ++ [.allocate 1 p.level]) ++
          List.replicate n (.allocate 1 p.level) := hcalls
      refine ⟨p1, st1, ?_, hinner2, hlevel2, ?_, hlen, ?_, ?_⟩
      · simp only [acquireN, acquire_step_grow p st h]
        exact heq
      · omega
      · omega
      · rw [hcalls2, List.append_assoc]
        rw [show [BackendCall.allocate 1 p.level] ++
            List.replicate n (BackendCall.allocate 1 p.level) =
            List.replicate (n + 1) (BackendCall.allocate 1 p.level) from by
          rw [List.replicate_succ]
          rfl]

/-- A batch of `k` acquisitions that all fit inside the existing store: the
store is unchanged and no handle is allocated; exactly one zero-count
allocate call is made when the batch ends exactly at the store length. -/
theorem acquireN_reuse {C : Type} (k : Nat) :
    ∀ (p : OwningCommandPool C) (st : Backend),
    p.next + k ≤ p.buffers.length →
    ∃ p1 st1, acquireN k p st = some (p1, st1) ∧
      p1.inner = p.inner ∧ p1.level = p.level ∧
      p1.buffers = p.buffers ∧ p1.next = p.next + k ∧
      st1.fresh = st.fresh ∧
      st1.calls = st.calls ++
        (if k ≠ 0 ∧ p.next + k = p.buffers.length
          then [.allocate 0 p.level] else []) := by
  induction k with
  | zero =>
      intro p st h
      exact ⟨p, st, rfl, rfl, rfl, rfl, rfl, rfl, by simp⟩
  | succ k ih =>
      intro p st h
      by_cases hb : p.next + 1 = p.buffers.length
      · have hk : k = 0 := by omega
        subst hk
        obtain ⟨b, hstep⟩ := acquire_step_boundary p st hb
        refine ⟨⟨p.inner, p.level, p.buffers, p.next + 1⟩,
          ⟨st.fresh, st.calls ++ [.allocate 0 p.level]⟩,
          ?_, rfl, rfl, rfl, rfl, rfl, ?_⟩
        · simp only [acquireN, hstep]
        · rw [if_pos ⟨by omega, by omega⟩]
      · have hlt : p.next + 1 < p.buffers.length := by omega
        obtain ⟨b, hstep⟩ := acquire_step_mid p st hlt
        obtain ⟨p1, st1, heq, hinner, hlevel, hbuf, hnext, hfresh, hcalls⟩ :=
          ih ⟨p.inner, p.level, p.buffers, p.next + 1⟩ st
            (by show p.next + 1 + k ≤ p.buffers.length; omega)
        have hnext2 : p1.next = p.next + 1 + k := hnext
        have hcalls2 : st1.calls = st.calls ++
            (if k ≠ 0 ∧ p.next + 1 + k = p.buffers.length
              then [BackendCall.allocate 0 p.level] else []) := hcalls
        refine ⟨p1, st1, ?_, hinner, hlevel, hbuf, ?_, hfresh, ?_⟩
        · simp only [acquireN, hstep]
          exact heq
        · omega
        · rw [hcalls2]
          by_cases hc : p.next + 1 + k = p.buffers.length
          · rw [if_pos ⟨by omega, hc⟩, if_pos ⟨by omega, by omega⟩]
          · rw [if_neg (by omega), if_neg (by omega)]

/-- C1 (amended): for an owning pool that starts with an empty store,
acquiring N buffers, resetting, and acquiring N buffers again allocates no
new buffer from the backend — the store, the cursor and the total count of
backend-allocated handles are unchanged across the second batch, because
slots [0,N) are reused. However, since `reserve` re-enters the backend when
`total` equals the store length, the second batch performs exactly one
additional backend allocate call, with count 0, at its Nth acquisition (none
when N = 0): the count of backend allocate calls is not unchanged. -/
theorem C1_reuse_after_reset {C : Type} (inner : CommandPool C)
    (level : Level) (st : Backend) (N : Nat) :
    ∃ p1 st1 p3 st3,
      acquireN N (OwningCommandPool.from_inner inner level) st =
        some (p1, st1) ∧
      acquireN N ((p1.reset st1).1) ((p1.reset st1).2) = some (p3, st3) ∧
      p3.buffers = p1.buffers ∧
      p3.next = p1.next ∧
      st3.allocatedTotal = st1.allocatedTotal ∧
      st3.fresh = st1.fresh ∧
      st3.allocCalls = st1.allocCalls + (if N = 0 then 0 else 1) := by
  obtain ⟨p1, st1, heq1, hinner1, hlevel1, hnext1, hlen1, hfresh1, hcalls1⟩ :=
    acquireN_grow N (OwningCommandPool.from_inner inner level) st rfl
  have hnext1c : p1.next = 0 + N := hnext1
  obtain ⟨p3, st3, heq3, hinner3, hlevel3, hbuf3, hnext3, hfresh3, hcalls3⟩ :=
    acquireN_reuse N ((p1.reset st1).1) ((p1.reset st1).2)
      (by show 0 + N ≤ p1.buffers.length; omega)
  have hbuf3c : p3.buffers = p1.buffers := hbuf3
  have hnext3c : p3.next = 0 + N := hnext3
  have hfresh3c : st3.fresh = st1.fresh := hfresh3
  have hlevel3c : (p1.reset st1).1.level = p1.level := rfl
  have hcalls3c : st3.calls = (st1.calls ++ [.resetPool p1.inner.raw]) ++
      (if N ≠ 0 ∧ 0 + N = p1.buffers.length
        then [BackendCall.allocate 0 p1.level] else []) := hcalls3
  refine ⟨p1, st1, p3, st3, heq1, heq3, hbuf3c, by omega, ?_, hfresh3c, ?_⟩
  · show allocTotal st3.calls = allocTotal st1.calls
    rw [hcalls3c, allocTotal_append, allocTotal_append]
    have h0 : allocTotal (if N ≠ 0 ∧ 0 + N = p1.buffers.length
        then [BackendCall.allocate 0 p1.level] else []) = 0 := by
      split
      · rfl
      · rfl
    rw [h0]
    rfl
  · show allocCallCount st3.calls =
      allocCallCount st1.calls + (if N = 0 then 0 else 1)
    rw [hcalls3c, allocCallCount_append, allocCallCount_append]
    by_cases hN : N = 0
    · rw [if_neg (fun hA => hA.1 hN), if_pos hN]
      rfl
    · rw [if_pos ⟨hN, by omega⟩, if_neg hN]
      rfl

/-- C1 is false as stated: with N = 1, the first batch makes one backend
allocate call; after the reset, the second batch of one acquisition reuses
slot 0 yet still makes one more backend allocate call (with count 0), so the
count of backend allocate calls changes from 1 to 2 across the second
batch. -/
theorem C1_counterexample :
    acquireN 1 (OwningCommandPool.from_inner
        (CommandPool.from_raw 0 QueueType.general .noIndividualReset 0)
        .primary) ⟨1, []⟩ =
      some (⟨CommandPool.from_raw 0 QueueType.general .noIndividualReset 0,
          .primary, [1], 1⟩,
        ⟨2, [.allocate 1 .primary]⟩) ∧
    OwningCommandPool.reset
        (⟨CommandPool.from_raw 0 QueueType.general .noIndividualReset 0,
          .primary, [1], 1⟩ : OwningCommandPool QueueType)
        ⟨2, [.allocate 1 .primary]⟩ =
      (⟨CommandPool.from_raw 0 QueueType.general .noIndividualReset 0,
          .primary, [1], 0⟩,
        ⟨2, [.allocate 1 .primary, .resetPool 0]⟩) ∧
    acquireN 1 (⟨CommandPool.from_raw 0 QueueType.general .noIndividualReset 0,
          .primary, [1], 0⟩ : OwningCommandPool QueueType)
        ⟨2, [.allocate 1 .primary, .resetPool 0]⟩ =
      some (⟨CommandPool.from_raw 0 QueueType.general .noIndividualReset 0,
          .primary, [1], 1⟩,
        ⟨2, [.allocate 1 .primary, .resetPool 0, .allocate 0 .primary]⟩) ∧
    Backend.allocCalls
        ⟨2, [.allocate 1 .primary, .resetPool 0, .allocate 0 .primary]⟩ ≠
      Backend.allocCalls ⟨2, [.allocate 1 .primary]⟩ := by
  refine ⟨?_, ?_, ?_, ?_⟩
  · decide
  · decide
  · decide
  · decide
